import Mathlib

/-!
Verification of the batch image compressor core.

Shallow embedding of the batch-compression state machine of the source
component `MultiImageCompressor` (the multi-image page). Pure helpers are
translated as Lean functions; the React `setImages` closures become explicit
transition functions on a `BatchState`; the asynchronous FileReader and
canvas callbacks become events of a step relation whose payloads are the
strings the platform would deliver. Sizes are kept as exact rationals, with
the two-decimal rounding of `Number(x.toFixed(2))` made explicit; the
one-decimal `toFixed(1)` formatting of the displayed statistics is
presentation only and the statistics are kept exact. JavaScript string
operations (`split`, `startsWith`) are modelled on character lists so that
concrete instances compute inside the kernel.
-/

namespace ImageCompressor

/-- Fields of a platform file object that the program can see: its name, its
declared MIME type string, its byte length, and the raw content bytes (the
content is carried so that theorems can state that ingestion never inspects
it). -/
structure JsFile where
  name : String
  type : String
  size : Nat
  content : List Nat
deriving DecidableEq

/-- Model of `Number(x.toFixed(2))`: rounding to two decimal places (for the
nonnegative inputs the program produces, JavaScript rounds ties up, as
`round` does). -/
def toFixed2 (q : ℚ) : ℚ := round (q * 100) / 100

def MAX_TOTAL_SIZE_MB : ℚ := 50

/-- Model of `s.startsWith(p)`. -/
def jsStartsWith (s p : String) : Bool := p.data.isPrefixOf s.data

/-- Model of `s.split(sep)` on character lists: JavaScript split never
returns an empty array, and splitting the empty string yields one empty
part. -/
def splitOnChar (sep : Char) : List Char → List (List Char)
  | [] => [[]]
  | c :: cs =>
    let r := splitOnChar sep cs
    if c == sep then [] :: r
    else
      match r with
      | [] => [[c]]
      | h :: t => (c :: h) :: t

/-- Per-image state, translated field for field from the source type
`ImageCompressionState` (sizes in KB; `compressedSrc` and `error` are the
nullable fields). -/
structure ImageCompressionState where
  id : String
  file : JsFile
  originalSize : ℚ
  originalSrc : String
  compressedSrc : Option String
  compressedSize : ℚ
  isCompressing : Bool
  error : Option String
deriving DecidableEq

/-- The component state the claims are about: the `images` array and the
shared `quality` slider value (initially 70). The remaining component state
(`isProcessingAll`, DOM refs) is presentation only. -/
structure BatchState where
  images : List ImageCompressionState
  quality : Nat
deriving DecidableEq

def initState : BatchState := { images := [], quality := 70 }

/-! ## SizeEstimator: `getFileSizeFromDataURL`

The source splits the data URL on commas, takes the part after the first
comma, feeds it to the platform `atob`, and measures the decoded binary
length in KB; a missing or empty body fails the falsy check and an `atob`
failure lands in the catch, both yielding 0. `atobLen` models the WHATWG
forgiving-base64 decode that `atob` performs, returning the decoded byte
count, or `none` when `atob` throws. -/

/-- Characters of the base64 alphabet (padding excluded). -/
def isB64Char (c : Char) : Bool :=
  (decide ('A' ≤ c) && decide (c ≤ 'Z')) ||
  (decide ('a' ≤ c) && decide (c ≤ 'z')) ||
  (decide ('0' ≤ c) && decide (c ≤ '9')) ||
  (c == '+') || (c == '/')

/-- ASCII whitespace, which forgiving-base64 strips before decoding. -/
def isAsciiWs (c : Char) : Bool :=
  (c == ' ') || (c == '\t') || (c == '\n') || (c == '\x0c') || (c == '\r')

/-- Up to two trailing padding characters are removed when the length is a
multiple of four. -/
def dropPadding (cs : List Char) : List Char :=
  match cs.reverse with
  | '=' :: '=' :: rest => rest.reverse
  | '=' :: rest => rest.reverse
  | _ => cs

/-- Byte length of the string the platform `atob` returns, or `none` when
`atob` would throw (models the WHATWG forgiving-base64 decode). -/
def atobLen (s : List Char) : Option Nat :=
  let cs := s.filter fun c => !isAsciiWs c
  let cs := if cs.length % 4 == 0 then dropPadding cs else cs
  if cs.length % 4 == 1 then none
  else if cs.all isB64Char then
    some (cs.length / 4 * 3 +
      (if cs.length % 4 == 2 then 1 else if cs.length % 4 == 3 then 2 else 0))
  else none

/-- Translation of `getFileSizeFromDataURL`: KB size measured from the
decoded base64 body after the first comma of a data URL, 0 for malformed
payloads (no comma, empty body, or a body `atob` rejects). -/
def getFileSizeFromDataURL (dataurl : String) : ℚ :=
  match (splitOnChar ',' dataurl.data).get? 1 with
  | none => 0
  | some base64 =>
    if base64.isEmpty then 0
    else
      match atobLen base64 with
      | none => 0
      | some n => toFixed2 ((n : ℚ) / 1024)

/-! ## Ingestion: `handleFileProcessing` -/

/-- Outcome of one file of an ingest call: accepted into the batch, ignored
as a non-image, or rejected because the running total went over the budget
(the source `break` rejects the triggering file and every file after it). -/
inductive IngestDecision where
  | accepted
  | rejectedNotImage
  | rejectedBudget
deriving DecidableEq

/-- The record `handleFileProcessing` pushes for an accepted file. -/
def mkRecord (i : String) (f : JsFile) (sizeInKB : ℚ) : ImageCompressionState :=
  { id := i, file := f, originalSize := sizeInKB, originalSrc := "",
    compressedSrc := none, compressedSize := 0, isCompressing := false,
    error := none }

/-- The loop of `handleFileProcessing`, with `total` the running size
accumulator; note that, as in the source, each file size joins the
accumulator before the image-type check. Files are paired with the fresh
ids `crypto.randomUUID` would mint. Returns the accepted records in order
and one decision per file. -/
def processFiles (total : ℚ) :
    List (String × JsFile) → List ImageCompressionState × List IngestDecision
  | [] => ([], [])
  | (i, f) :: rest =>
    let sizeInKB := toFixed2 ((f.size : ℚ) / 1024)
    let total2 := total + sizeInKB
    if jsStartsWith f.type "image/" = false then
      let p := processFiles total2 rest
      (p.1, IngestDecision.rejectedNotImage :: p.2)
    else if MAX_TOTAL_SIZE_MB * 1024 < total2 then
      ([], IngestDecision.rejectedBudget :: rest.map fun _ => IngestDecision.rejectedBudget)
    else
      let p := processFiles total2 rest
      (mkRecord i f sizeInKB :: p.1, IngestDecision.accepted :: p.2)

/-- Sum of `originalSize` over a record list. -/
def sumOriginal (l : List ImageCompressionState) : ℚ :=
  (l.map (·.originalSize)).sum

/-- Sum of `compressedSize` over a record list. -/
def sumCompressed (l : List ImageCompressionState) : ℚ :=
  (l.map (·.compressedSize)).sum

/-- Translation of `handleFileProcessing`: the accumulator starts at the
total original size of the records already in the batch. -/
def handleFileProcessing (images : List ImageCompressionState)
    (files : List (String × JsFile)) :
    List ImageCompressionState × List IngestDecision :=
  processFiles (sumOriginal images) files

/-! ## Per-record transitions

Each `setImages(prev => prev.map(img => img.id === id ? {...} : img))`
closure of the source becomes one function below. -/

/-- The shared shape of every record update in the source: map over the
array, replacing the records whose id matches. -/
def mapById (i : String) (f : ImageCompressionState → ImageCompressionState)
    (l : List ImageCompressionState) : List ImageCompressionState :=
  l.map fun r => if r.id = i then f r else r

/-- Synchronous start of `compressImage`: mark the record compressing and
clear its error. -/
def compressStart (i : String) (l : List ImageCompressionState) :
    List ImageCompressionState :=
  mapById i (fun r => { r with isCompressing := true, error := none }) l

/-- The `img.onload` success path of `compressImage`: store the encoded data
URL and its measured size, stop compressing. -/
def compressSuccess (i : String) (url : String) (l : List ImageCompressionState) :
    List ImageCompressionState :=
  mapById i
    (fun r =>
      { r with
        compressedSrc := some url
        compressedSize := getFileSizeFromDataURL url
        isCompressing := false })
    l

/-- The missing-2d-context path of `compressImage`. -/
def compressCanvasError (i : String) (l : List ImageCompressionState) :
    List ImageCompressionState :=
  mapById i
    (fun r => { r with isCompressing := false, error := some "Canvas error." }) l

/-- The `img.onerror` path of `compressImage`. -/
def compressLoadError (i : String) (l : List ImageCompressionState) :
    List ImageCompressionState :=
  mapById i
    (fun r => { r with isCompressing := false, error := some "Image load failed." }) l

/-- `reader.onloadstart` of ingestion. -/
def readStart (i : String) (l : List ImageCompressionState) :
    List ImageCompressionState :=
  mapById i (fun r => { r with isCompressing := true }) l

/-- `reader.onload` of ingestion followed by the synchronous start of the
`compressImage` it invokes: the original data URL is stored, the record is
compressing, the error is cleared. -/
def readSuccess (i : String) (src : String) (l : List ImageCompressionState) :
    List ImageCompressionState :=
  mapById i
    (fun r => { r with originalSrc := src, isCompressing := true, error := none }) l

/-- `reader.onerror` of ingestion. -/
def readError (i : String) (l : List ImageCompressionState) :
    List ImageCompressionState :=
  mapById i
    (fun r => { r with isCompressing := false, error := some "Read error." }) l

/-! ## Quality changes, removal, statistics, batch download -/

/-- One `compressImage(id, src, quality)` invocation that
`handleQualityChange` issues. -/
structure EncodeReq where
  id : String
  src : String
  q : Nat
deriving DecidableEq

/-- Translation of `handleQualityChange`: the quality is updated; when the
batch is not empty, the first image with a loaded source is re-compressed at
once (its record is marked compressing synchronously) and every later image
with a loaded source gets a deferred `setTimeout` re-compression. The
returned pair lists the immediate and the deferred encoder invocations. -/
def handleQualityChange (s : BatchState) (newQ : Nat) :
    BatchState × List EncodeReq × List EncodeReq :=
  match s.images with
  | [] => ({ s with quality := newQ }, ([], []))
  | first :: rest =>
    let immediate : List EncodeReq :=
      if first.originalSrc = "" then [] else [⟨first.id, first.originalSrc, newQ⟩]
    let deferred : List EncodeReq :=
      (rest.filter fun r => !(r.originalSrc == "")).map
        fun r => ⟨r.id, r.originalSrc, newQ⟩
    let images2 :=
      if first.originalSrc = "" then s.images else compressStart first.id s.images
    ({ images := images2, quality := newQ }, (immediate, deferred))

/-- Translation of `handleRemoveImage`. -/
def handleRemoveImage (i : String) (s : BatchState) : BatchState :=
  { s with images := s.images.filter fun r => !(r.id == i) }

/-- JavaScript truthiness of a string-or-null value: null and the empty
string are falsy. -/
def truthy : Option String → Bool
  | none => false
  | some s => !(s == "")

/-- The record of derived values `globalStats` memoizes (numbers kept exact;
the source formats them with one decimal for display). -/
structure BatchStats where
  originalTotal : ℚ
  compressedTotal : ℚ
  saved : ℚ
  ratio : ℚ
  allCompressed : Bool
deriving DecidableEq

/-- Translation of `globalStats`: totals, the saved amount and reduction
ratio clamped below at zero as the source displays them, and the
all-finished flag. -/
def globalStats (s : BatchState) : BatchStats :=
  let originalTotal := sumOriginal s.images
  let compressedTotal := sumCompressed s.images
  let saved := originalTotal - compressedTotal
  let ratio := if 0 < originalTotal then saved / originalTotal * 100 else 0
  let allCompressed := s.images.all fun r =>
    (truthy r.compressedSrc || truthy r.error) && !r.isCompressing
  { originalTotal := originalTotal
    compressedTotal := compressedTotal
    saved := if 0 < saved then saved else 0
    ratio := if 0 < ratio then ratio else 0
    allCompressed := allCompressed && decide (0 < s.images.length) }

/-- The regex replace `name.replace(/\.[^/.]+$/, "")`: strip a final
extension made of a dot followed by at least one character that is neither a
dot nor a slash. -/
def stripExt (name : String) : String :=
  let rev := name.data.reverse
  let ext := rev.takeWhile fun c => !(c == '.') && !(c == '/')
  match rev.drop ext.length, ext with
  | '.' :: base, _ :: _ => String.mk base.reverse
  | _, _ => name

/-- Name of one archive entry in `handleBatchDownload`. -/
def entryName (name : String) (q : Nat) : String :=
  stripExt name ++ "_Q" ++ toString q ++ ".jpg"

/-- Name of the archive itself in `handleBatchDownload`. -/
def zipFileName (q : Nat) : String :=
  "compressed_images_Q" ++ toString q ++ ".zip"

/-- The `zip.file(...)` calls of `handleBatchDownload`: one entry per record
with a truthy `compressedSrc`, carrying the derived file name and the base64
body after the first comma of the stored data URL. -/
def zipEntriesList (q : Nat) (l : List ImageCompressionState) :
    List (String × Option (List Char)) :=
  l.filterMap fun r =>
    match r.compressedSrc with
    | none => none
    | some src =>
      if src == "" then none
      else some (entryName r.file.name q, (splitOnChar ',' src.data).get? 1)

def zipEntries (s : BatchState) : List (String × Option (List Char)) :=
  zipEntriesList s.quality s.images

/-- Translation of `handleBatchDownload`: nothing happens unless
`allCompressed` holds; otherwise an archive named `zipFileName` with the
entries of `zipEntries` is produced. -/
def handleBatchDownload (s : BatchState) :
    Option (String × List (String × Option (List Char))) :=
  if (globalStats s).allCompressed then some (zipFileName s.quality, zipEntries s)
  else none

/-! ## The event system

Reachable component states: the program starts at `initState` and every
`setImages`/`setQuality` mutation of the source is one event. Asynchronous
callback events may arrive at any time and for any id (an over-approximation
of the scheduler); the only environment facts assumed are that
`crypto.randomUUID` mints fresh ids and that `FileReader.readAsDataURL` and
`canvas.toDataURL` deliver strings that start with "data:". -/

inductive Event where
  | ingestEv (files : List (String × JsFile))
  | readStartEv (i : String)
  | readSuccessEv (i : String) (src : String)
  | readErrorEv (i : String)
  | compressStartEv (i : String)
  | compressSuccessEv (i : String) (url : String)
  | compressCanvasErrorEv (i : String)
  | compressLoadErrorEv (i : String)
  | qualityChangeEv (q : Nat)
  | removeEv (i : String)
  | resetEv

/-- What the environment guarantees about an event: ingested ids are fresh
and mutually distinct, and data URLs delivered by the platform carry the
"data:" scheme. -/
def permitted : Event → BatchState → Prop
  | Event.ingestEv files, s =>
      (files.map Prod.fst).Nodup ∧
      ∀ p ∈ files, ∀ r ∈ s.images, p.1 ≠ r.id
  | Event.readSuccessEv _ src, _ => jsStartsWith src "data:" = true
  | Event.compressSuccessEv _ url, _ => jsStartsWith url "data:" = true
  | _, _ => True

/-- The state after an event. -/
def applyEvent : Event → BatchState → BatchState
  | Event.ingestEv files, s =>
      { s with images := s.images ++ (handleFileProcessing s.images files).1 }
  | Event.readStartEv i, s => { s with images := readStart i s.images }
  | Event.readSuccessEv i src, s => { s with images := readSuccess i src s.images }
  | Event.readErrorEv i, s => { s with images := readError i s.images }
  | Event.compressStartEv i, s => { s with images := compressStart i s.images }
  | Event.compressSuccessEv i url, s =>
      { s with images := compressSuccess i url s.images }
  | Event.compressCanvasErrorEv i, s =>
      { s with images := compressCanvasError i s.images }
  | Event.compressLoadErrorEv i, s =>
      { s with images := compressLoadError i s.images }
  | Event.qualityChangeEv q, s => (handleQualityChange s q).1
  | Event.removeEv i, s => handleRemoveImage i s
  | Event.resetEv, s => { s with images := [] }

/-- States the component can reach from its initial state. -/
inductive Reachable : BatchState → Prop
  | init : Reachable initState
  | step {s : BatchState} (e : Event) :
      Reachable s → permitted e s → Reachable (applyEvent e s)

/-- The per-record lifecycle status of the specification, projected from the
source record fields: a compressing record is `Compressing`; otherwise a
truthy error means `Errored`, a truthy compressed source means `Ready`, and
a record still waiting for its first result is `Loading`. -/
inductive RecStatus where
  | Loading
  | Compressing
  | Ready
  | Errored
deriving DecidableEq

def status (r : ImageCompressionState) : RecStatus :=
  if r.isCompressing then RecStatus.Compressing
  else if truthy r.error then RecStatus.Errored
  else if truthy r.compressedSrc then RecStatus.Ready
  else RecStatus.Loading

/-! ## Reference definitions taken from the specification wording

These three definitions follow the words of the specification for
`computeStats` (not the source) and are compared with `globalStats`. -/

/-- Reference `savedKB` of the spec: `max(0, originalTotalKB - compressedTotalKB)`. -/
def specSavedKB (s : BatchState) : ℚ :=
  max 0 (sumOriginal s.images - sumCompressed s.images)

/-- Reference `reductionPercent` of the spec: `savedKB / originalTotalKB * 100`
when the original total is positive, else 0. -/
def specReductionPercent (s : BatchState) : ℚ :=
  if 0 < sumOriginal s.images then specSavedKB s / sumOriginal s.images * 100 else 0

/-- Reference `allDone` of the spec: the records are non-empty and every one
is `Ready` or `Errored`. -/
def specAllDone (s : BatchState) : Prop :=
  s.images ≠ [] ∧ ∀ r ∈ s.images,
    status r = RecStatus.Ready ∨ status r = RecStatus.Errored

/-! ## Basic lemmas about rounding, sums and `mapById` -/

theorem toFixed2_nonneg {q : ℚ} (h : 0 ≤ q) : 0 ≤ toFixed2 q := by
  unfold toFixed2
  have h1 : (0 : ℤ) ≤ round (q * 100) := by
    rw [round_eq]
    exact Int.le_floor.mpr (by push_cast; linarith)
  have h2 : (0 : ℚ) ≤ (round (q * 100) : ℤ) := by exact_mod_cast h1
  linarith

theorem sumOriginal_nil : sumOriginal [] = 0 := rfl

theorem sumOriginal_cons (r : ImageCompressionState) (l : List ImageCompressionState) :
    sumOriginal (r :: l) = r.originalSize + sumOriginal l := by
  simp [sumOriginal]

theorem sumOriginal_append (a b : List ImageCompressionState) :
    sumOriginal (a ++ b) = sumOriginal a + sumOriginal b := by
  simp [sumOriginal]

theorem sumOriginal_filter_le (p : ImageCompressionState → Bool)
    (l : List ImageCompressionState) (h : ∀ r ∈ l, 0 ≤ r.originalSize) :
    sumOriginal (l.filter p) ≤ sumOriginal l := by
  induction l with
  | nil => simp [sumOriginal]
  | cons a t ih =>
    have ha := h a (List.mem_cons_self a t)
    have ht := ih fun r hr => h r (List.mem_cons_of_mem a hr)
    by_cases hp : p a = true
    · rw [List.filter_cons_of_pos hp, sumOriginal_cons, sumOriginal_cons]
      linarith
    · rw [List.filter_cons_of_neg (by simp [hp]), sumOriginal_cons]
      linarith

theorem mem_mapById {r' : ImageCompressionState} {i : String}
    {f : ImageCompressionState → ImageCompressionState} {l : List ImageCompressionState}
    (h : r' ∈ mapById i f l) :
    ∃ r ∈ l, r' = if r.id = i then f r else r := by
  obtain ⟨r, hr, he⟩ := List.mem_map.mp h
  exact ⟨r, hr, he.symm⟩

theorem mapById_eq_self {i : String} {f : ImageCompressionState → ImageCompressionState}
    {l : List ImageCompressionState} (h : ∀ r ∈ l, r.id ≠ i) :
    mapById i f l = l := by
  induction l with
  | nil => rfl
  | cons a t ih =>
    unfold mapById at *
    rw [List.map_cons, if_neg (h a (List.mem_cons_self a t)),
      ih fun r hr => h r (List.mem_cons_of_mem a hr)]

theorem sumOriginal_mapById (i : String) (f : ImageCompressionState → ImageCompressionState)
    (l : List ImageCompressionState) (h : ∀ r, (f r).originalSize = r.originalSize) :
    sumOriginal (mapById i f l) = sumOriginal l := by
  induction l with
  | nil => rfl
  | cons a t ih =>
    unfold mapById at *
    rw [List.map_cons, sumOriginal_cons, sumOriginal_cons, ih]
    by_cases hc : a.id = i
    · rw [if_pos hc, h a]
    · rw [if_neg hc]

/-! ## Lemmas about the ingestion loop -/

theorem processFiles_cons_notImage (total : ℚ) (i : String) (f : JsFile)
    (rest : List (String × JsFile)) (h : jsStartsWith f.type "image/" = false) :
    processFiles total ((i, f) :: rest) =
      ((processFiles (total + toFixed2 ((f.size : ℚ) / 1024)) rest).1,
        IngestDecision.rejectedNotImage ::
          (processFiles (total + toFixed2 ((f.size : ℚ) / 1024)) rest).2) := by
  simp [processFiles, h]

theorem processFiles_cons_budget (total : ℚ) (i : String) (f : JsFile)
    (rest : List (String × JsFile)) (h : jsStartsWith f.type "image/" = true)
    (h2 : MAX_TOTAL_SIZE_MB * 1024 < total + toFixed2 ((f.size : ℚ) / 1024)) :
    processFiles total ((i, f) :: rest) =
      ([], IngestDecision.rejectedBudget ::
        rest.map fun _ => IngestDecision.rejectedBudget) := by
  simp [processFiles, h, h2]

theorem processFiles_cons_accept (total : ℚ) (i : String) (f : JsFile)
    (rest : List (String × JsFile)) (h : jsStartsWith f.type "image/" = true)
    (h2 : ¬ MAX_TOTAL_SIZE_MB * 1024 < total + toFixed2 ((f.size : ℚ) / 1024)) :
    processFiles total ((i, f) :: rest) =
      (mkRecord i f (toFixed2 ((f.size : ℚ) / 1024)) ::
          (processFiles (total + toFixed2 ((f.size : ℚ) / 1024)) rest).1,
        IngestDecision.accepted ::
          (processFiles (total + toFixed2 ((f.size : ℚ) / 1024)) rest).2) := by
  simp [processFiles, h, h2]

theorem processFiles_over (total : ℚ) (fs : List (String × JsFile))
    (h : MAX_TOTAL_SIZE_MB * 1024 < total) : (processFiles total fs).1 = [] := by
  induction fs generalizing total with
  | nil => rfl
  | cons p rest ih =>
    obtain ⟨i, f⟩ := p
    have hf : 0 ≤ toFixed2 ((f.size : ℚ) / 1024) := toFixed2_nonneg (by positivity)
    by_cases h1 : jsStartsWith f.type "image/" = false
    · rw [processFiles_cons_notImage total i f rest h1]
      exact ih _ (by linarith)
    · have h1' : jsStartsWith f.type "image/" = true := by
        cases hv : jsStartsWith f.type "image/" <;> simp [hv] at h1 ⊢
      have h2 : MAX_TOTAL_SIZE_MB * 1024 < total + toFixed2 ((f.size : ℚ) / 1024) := by
        linarith
      rw [processFiles_cons_budget total i f rest h1' h2]

theorem processFiles_sum_le (total : ℚ) (fs : List (String × JsFile))
    (h : total ≤ MAX_TOTAL_SIZE_MB * 1024) :
    total + sumOriginal (processFiles total fs).1 ≤ MAX_TOTAL_SIZE_MB * 1024 := by
  induction fs generalizing total with
  | nil => simpa [processFiles, sumOriginal]
  | cons p rest ih =>
    obtain ⟨i, f⟩ := p
    have hf : 0 ≤ toFixed2 ((f.size : ℚ) / 1024) := toFixed2_nonneg (by positivity)
    by_cases h1 : jsStartsWith f.type "image/" = false
    · rw [processFiles_cons_notImage total i f rest h1]
      by_cases h2 : MAX_TOTAL_SIZE_MB * 1024 < total + toFixed2 ((f.size : ℚ) / 1024)
      · rw [processFiles_over _ _ h2, sumOriginal_nil]
        linarith
      · have := ih (total + toFixed2 ((f.size : ℚ) / 1024)) (le_of_not_lt h2)
        linarith
    · have h1' : jsStartsWith f.type "image/" = true := by
        cases hv : jsStartsWith f.type "image/" <;> simp [hv] at h1 ⊢
      by_cases h2 : MAX_TOTAL_SIZE_MB * 1024 < total + toFixed2 ((f.size : ℚ) / 1024)
      · rw [processFiles_cons_budget total i f rest h1' h2, sumOriginal_nil]
        linarith
      · rw [processFiles_cons_accept total i f rest h1' h2, sumOriginal_cons]
        have := ih (total + toFixed2 ((f.size : ℚ) / 1024)) (le_of_not_lt h2)
        simp [mkRecord] at this ⊢
        linarith

theorem processFiles_records (total : ℚ) (fs : List (String × JsFile)) :
    ∀ r ∈ (processFiles total fs).1,
      0 ≤ r.originalSize ∧ r.originalSrc = "" ∧ r.compressedSrc = none ∧
      r.compressedSize = 0 ∧ r.isCompressing = false ∧ r.error = none ∧
      ∃ p ∈ fs, r.id = p.1 ∧ r.file = p.2 := by
  induction fs generalizing total with
  | nil => intro r hr; simp [processFiles] at hr
  | cons p rest ih =>
    obtain ⟨i, f⟩ := p
    intro r hr
    have hf : 0 ≤ toFixed2 ((f.size : ℚ) / 1024) := toFixed2_nonneg (by positivity)
    by_cases h1 : jsStartsWith f.type "image/" = false
    · rw [processFiles_cons_notImage total i f rest h1] at hr
      obtain ⟨h2, h3, h4, h5, h6, h7, q, hq, hid⟩ := ih _ r hr
      exact ⟨h2, h3, h4, h5, h6, h7, q, List.mem_cons_of_mem _ hq, hid⟩
    · have h1' : jsStartsWith f.type "image/" = true := by
        cases hv : jsStartsWith f.type "image/" <;> simp [hv] at h1 ⊢
      by_cases h2 : MAX_TOTAL_SIZE_MB * 1024 < total + toFixed2 ((f.size : ℚ) / 1024)
      · rw [processFiles_cons_budget total i f rest h1' h2] at hr
        simp at hr
      · rw [processFiles_cons_accept total i f rest h1' h2] at hr
        rcases List.mem_cons.mp hr with he | hm
        · subst he
          refine ⟨hf, rfl, rfl, rfl, rfl, rfl, (i, f), List.mem_cons_self _ _, rfl, rfl⟩
        · obtain ⟨h3, h4, h5, h6, h7, h8, q, hq, hid⟩ := ih _ r hm
          exact ⟨h3, h4, h5, h6, h7, h8, q, List.mem_cons_of_mem _ hq, hid⟩

theorem processFiles_failFast (total : ℚ) (fs : List (String × JsFile)) :
    ∀ i j : Nat,
      (processFiles total fs).2[i]? = some IngestDecision.rejectedBudget →
      i ≤ j → j < (processFiles total fs).2.length →
      (processFiles total fs).2[j]? = some IngestDecision.rejectedBudget := by
  induction fs generalizing total with
  | nil => intro i j hi _ _; simp [processFiles] at hi
  | cons p rest ih =>
    obtain ⟨i0, f⟩ := p
    intro i j hi hij hj
    by_cases h1 : jsStartsWith f.type "image/" = false
    · rw [processFiles_cons_notImage total i0 f rest h1] at hi hj ⊢
      match i, j with
      | 0, _ => simp at hi
      | i + 1, 0 => omega
      | i + 1, j + 1 =>
        simp only [List.getElem?_cons_succ] at hi ⊢
        simp only [List.length_cons] at hj
        exact ih _ i j hi (by omega) (by omega)
    · have h1' : jsStartsWith f.type "image/" = true := by
        cases hv : jsStartsWith f.type "image/" <;> simp [hv] at h1 ⊢
      by_cases h2 : MAX_TOTAL_SIZE_MB * 1024 < total + toFixed2 ((f.size : ℚ) / 1024)
      · rw [processFiles_cons_budget total i0 f rest h1' h2] at hj ⊢
        match j with
        | 0 => simp
        | j + 1 =>
          simp only [List.getElem?_cons_succ, List.getElem?_map]
          simp only [List.length_cons, List.length_map] at hj
          rw [List.getElem?_eq_getElem (by omega : j < rest.length)]
          rfl
      · rw [processFiles_cons_accept total i0 f rest h1' h2] at hi hj ⊢
        match i, j with
        | 0, _ => simp at hi
        | i + 1, 0 => omega
        | i + 1, j + 1 =>
          simp only [List.getElem?_cons_succ] at hi ⊢
          simp only [List.length_cons] at hj
          exact ih _ i j hi (by omega) (by omega)

/-- A file with its content bytes erased: two files equal under
`fileNoContent` differ only in content. -/
def fileNoContent (f : JsFile) : JsFile := { f with content := [] }

/-- A record with the content bytes of its carried file erased. -/
def eraseContent (r : ImageCompressionState) : ImageCompressionState :=
  { r with file := fileNoContent r.file }

theorem map_const_len {α β γ : Type _} (c : γ) (l1 : List α) (l2 : List β)
    (h : l1.length = l2.length) :
    l1.map (fun _ => c) = l2.map (fun _ => c) := by
  induction l1 generalizing l2 with
  | nil => cases l2 with
    | nil => rfl
    | cons b u => simp at h
  | cons a t ih => cases l2 with
    | nil => simp at h
    | cons b u =>
      simp only [List.map_cons, List.cons.injEq, true_and]
      exact ih u (by simpa using h)

/-- For two ingest calls whose file lists agree on everything except the
content bytes (same fresh ids, names, declared types and byte lengths), the
decisions agree and the created records agree up to those same content
bytes: ingestion never inspects content. -/
theorem processFiles_content_free (total : ℚ) :
    ∀ fs fs' : List (String × JsFile),
      List.Forall₂ (fun p q : String × JsFile =>
        p.1 = q.1 ∧ fileNoContent p.2 = fileNoContent q.2) fs fs' →
      (processFiles total fs).2 = (processFiles total fs').2 ∧
      (processFiles total fs).1.map eraseContent
        = (processFiles total fs').1.map eraseContent := by
  intro fs fs' hall
  induction hall generalizing total with
  | nil => exact ⟨rfl, rfl⟩
  | @cons p q ps qs hpq htail ih =>
    obtain ⟨hid, hfile⟩ := hpq
    obtain ⟨i0, f⟩ := p
    obtain ⟨i1, g⟩ := q
    simp only at hid hfile
    subst hid
    have htype : f.type = g.type := by
      have := congrArg JsFile.type hfile
      simpa [fileNoContent] using this
    have hsize : f.size = g.size := by
      have := congrArg JsFile.size hfile
      simpa [fileNoContent] using this
    have hkb : toFixed2 ((f.size : ℚ) / 1024) = toFixed2 ((g.size : ℚ) / 1024) := by
      rw [hsize]
    by_cases h1 : jsStartsWith f.type "image/" = false
    · have h1g : jsStartsWith g.type "image/" = false := by rw [← htype]; exact h1
      obtain ⟨hd, hr⟩ := ih (total + toFixed2 ((g.size : ℚ) / 1024))
      rw [processFiles_cons_notImage total i0 f ps h1,
        processFiles_cons_notImage total i0 g qs h1g, hkb]
      exact ⟨by rw [hd], hr⟩
    · have h1' : jsStartsWith f.type "image/" = true := by
        cases hv : jsStartsWith f.type "image/" <;> simp [hv] at h1 ⊢
      have h1g : jsStartsWith g.type "image/" = true := by rw [← htype]; exact h1'
      by_cases h2 : MAX_TOTAL_SIZE_MB * 1024 < total + toFixed2 ((f.size : ℚ) / 1024)
      · have h2g : MAX_TOTAL_SIZE_MB * 1024 < total + toFixed2 ((g.size : ℚ) / 1024) := by
          rw [← hkb]; exact h2
        rw [processFiles_cons_budget total i0 f ps h1' h2,
          processFiles_cons_budget total i0 g qs h1g h2g]
        exact ⟨by
          rw [map_const_len IngestDecision.rejectedBudget ps qs htail.length_eq], rfl⟩
      · have h2g : ¬ MAX_TOTAL_SIZE_MB * 1024 < total + toFixed2 ((g.size : ℚ) / 1024) := by
          rw [← hkb]; exact h2
        obtain ⟨hd, hr⟩ := ih (total + toFixed2 ((g.size : ℚ) / 1024))
        rw [processFiles_cons_accept total i0 f ps h1' h2,
          processFiles_cons_accept total i0 g qs h1g h2g, hkb]
        refine ⟨by rw [hd], ?_⟩
        simp only [List.map_cons]
        rw [hr]
        simp only [List.cons.injEq, and_true]
        simp [eraseContent, mkRecord, fileNoContent] at hfile ⊢
        exact hfile

/-! ## The reachable-state invariant -/

/-- Facts holding of every record of every reachable state: the original
size is nonnegative, a stored compressed data URL is never the empty string
(the platform always delivers a "data:" scheme), and a record with no
compressed result still has compressed size 0. -/
def recordInv (r : ImageCompressionState) : Prop :=
  0 ≤ r.originalSize ∧ r.compressedSrc ≠ some "" ∧
    (r.compressedSrc = none → r.compressedSize = 0)

def Inv (s : BatchState) : Prop :=
  (∀ r ∈ s.images, recordInv r) ∧ sumOriginal s.images ≤ MAX_TOTAL_SIZE_MB * 1024

theorem recordInv_mapById {l : List ImageCompressionState} {i : String}
    {f : ImageCompressionState → ImageCompressionState}
    (h : ∀ r ∈ l, recordInv r) (hf : ∀ r ∈ l, recordInv r → recordInv (f r)) :
    ∀ r' ∈ mapById i f l, recordInv r' := by
  intro r' hr'
  obtain ⟨r, hr, he⟩ := mem_mapById hr'
  subst he
  by_cases hc : r.id = i
  · rw [if_pos hc]; exact hf r hr (h r hr)
  · rw [if_neg hc]; exact h r hr

theorem inv_images_update {s : BatchState} {q : Nat} {i : String}
    {f : ImageCompressionState → ImageCompressionState}
    (hs : Inv s)
    (hsize : ∀ r, (f r).originalSize = r.originalSize)
    (hf : ∀ r ∈ s.images, recordInv r → recordInv (f r)) :
    Inv { images := mapById i f s.images, quality := q } := by
  obtain ⟨h1, h2⟩ := hs
  refine ⟨recordInv_mapById h1 hf, ?_⟩
  show sumOriginal (mapById i f s.images) ≤ MAX_TOTAL_SIZE_MB * 1024
  rw [sumOriginal_mapById _ _ _ hsize]
  exact h2

theorem jsStartsWith_data_ne_empty {u : String} (h : jsStartsWith u "data:" = true) :
    u ≠ "" := by
  intro he
  subst he
  exact absurd h (by decide)

theorem inv_applyEvent {s : BatchState} (e : Event) (hs : Inv s)
    (hp : permitted e s) : Inv (applyEvent e s) := by
  obtain ⟨hrec, hsum⟩ := hs
  cases e with
  | ingestEv files =>
    refine ⟨?_, ?_⟩
    · intro r hr
      simp only [applyEvent] at hr
      rcases List.mem_append.mp hr with h | h
      · exact hrec r h
      · obtain ⟨h0, _, h4, h5, _, _, _⟩ :=
          processFiles_records (sumOriginal s.images) files r h
        exact ⟨h0, by rw [h4]; simp, fun _ => h5⟩
    · show sumOriginal (s.images ++ (handleFileProcessing s.images files).1) ≤ _
      rw [sumOriginal_append]
      exact processFiles_sum_le (sumOriginal s.images) files hsum
  | readStartEv i =>
    exact inv_images_update ⟨hrec, hsum⟩ (fun r => rfl)
      (fun r _ h => by simpa [recordInv] using h)
  | readSuccessEv i src =>
    exact inv_images_update ⟨hrec, hsum⟩ (fun r => rfl)
      (fun r _ h => by simpa [recordInv] using h)
  | readErrorEv i =>
    exact inv_images_update ⟨hrec, hsum⟩ (fun r => rfl)
      (fun r _ h => by simpa [recordInv] using h)
  | compressStartEv i =>
    exact inv_images_update ⟨hrec, hsum⟩ (fun r => rfl)
      (fun r _ h => by simpa [recordInv] using h)
  | compressSuccessEv i url =>
    refine inv_images_update ⟨hrec, hsum⟩ (fun r => rfl) (fun r _ h => ?_)
    have hu : url ≠ "" := jsStartsWith_data_ne_empty hp
    refine ⟨h.1, ?_, ?_⟩
    · intro hc
      simp only at hc
      exact hu (Option.some.inj hc)
    · intro hc
      simp at hc
  | compressCanvasErrorEv i =>
    exact inv_images_update ⟨hrec, hsum⟩ (fun r => rfl)
      (fun r _ h => by simpa [recordInv] using h)
  | compressLoadErrorEv i =>
    exact inv_images_update ⟨hrec, hsum⟩ (fun r => rfl)
      (fun r _ h => by simpa [recordInv] using h)
  | qualityChangeEv q =>
    simp only [applyEvent, handleQualityChange]
    cases himg : s.images with
    | nil =>
      rw [himg] at hrec hsum
      exact ⟨hrec, hsum⟩
    | cons first rest =>
      rw [himg] at hrec hsum
      simp only
      by_cases hsrc : first.originalSrc = ""
      · rw [if_pos hsrc]
        exact ⟨hrec, hsum⟩
      · rw [if_neg hsrc]
        exact inv_images_update (s := ⟨first :: rest, s.quality⟩) (q := q)
          (i := first.id)
          ⟨hrec, hsum⟩ (fun r => rfl) (fun r _ h => by simpa [recordInv] using h)
  | removeEv i =>
    refine ⟨?_, ?_⟩
    · intro r hr
      exact hrec r (List.mem_of_mem_filter hr)
    · show sumOriginal (s.images.filter fun r => !(r.id == i)) ≤ _
      exact le_trans
        (sumOriginal_filter_le _ s.images fun r hr => (hrec r hr).1) hsum
  | resetEv =>
    refine ⟨?_, ?_⟩
    · intro r hr
      simp [applyEvent] at hr
    · show sumOriginal [] ≤ _
      rw [sumOriginal_nil]
      norm_num [MAX_TOTAL_SIZE_MB]

theorem reachable_inv {s : BatchState} (h : Reachable s) : Inv s := by
  induction h with
  | init =>
    refine ⟨?_, ?_⟩
    · intro r hr
      simp [initState] at hr
    · show sumOriginal [] ≤ _
      rw [sumOriginal_nil]
      norm_num [MAX_TOTAL_SIZE_MB]
  | step e _ hp ih => exact inv_applyEvent e ih hp

/-! ## Equations for the size estimator -/

theorem getFileSize_no_body {u : String}
    (h : (splitOnChar ',' u.data).get? 1 = none) : getFileSizeFromDataURL u = 0 := by
  unfold getFileSizeFromDataURL
  rw [h]

theorem getFileSize_empty_body {u : String} {b : List Char}
    (h : (splitOnChar ',' u.data).get? 1 = some b) (hb : b.isEmpty = true) :
    getFileSizeFromDataURL u = 0 := by
  unfold getFileSizeFromDataURL
  rw [h]
  simp [hb]

theorem getFileSize_bad_body {u : String} {b : List Char}
    (h : (splitOnChar ',' u.data).get? 1 = some b) (hb : b.isEmpty = false)
    (ha : atobLen b = none) : getFileSizeFromDataURL u = 0 := by
  unfold getFileSizeFromDataURL
  rw [h]
  simp [hb, ha]

theorem getFileSize_good_body {u : String} {b : List Char} {n : Nat}
    (h : (splitOnChar ',' u.data).get? 1 = some b) (hb : b.isEmpty = false)
    (ha : atobLen b = some n) :
    getFileSizeFromDataURL u = toFixed2 ((n : ℚ) / 1024) := by
  unfold getFileSizeFromDataURL
  rw [h]
  simp [hb, ha]

theorem b64_not_ws (c : Char) (h : isB64Char c = true) : isAsciiWs c = false := by
  cases hw : isAsciiWs c
  · rfl
  · exfalso
    simp only [isAsciiWs, Bool.or_eq_true, beq_iff_eq] at hw
    rcases hw with (((rfl | rfl) | rfl) | rfl) | rfl <;> exact absurd h (by decide)

theorem b64_ne_pad (c : Char) (h : isB64Char c = true) : c ≠ '=' := by
  intro he
  subst he
  exact absurd h (by decide)

theorem dropPadding_no_pad {cs : List Char} (h : ∀ c ∈ cs, isB64Char c = true) :
    dropPadding cs = cs := by
  unfold dropPadding
  split
  · rename_i rest heq
    exfalso
    have : '=' ∈ cs := by
      rw [← List.mem_reverse, heq]
      exact List.mem_cons_self _ _
    exact b64_ne_pad '=' (h '=' this) rfl
  · rename_i rest heq
    exfalso
    have : '=' ∈ cs := by
      rw [← List.mem_reverse, heq]
      exact List.mem_cons_self _ _
    exact b64_ne_pad '=' (h '=' this) rfl
  · rfl

theorem atobLen_unpadded {b : List Char} (h2 : ∀ c ∈ b, isB64Char c = true)
    (h3 : b.length % 4 = 0) : atobLen b = some (b.length / 4 * 3) := by
  have hfil : (b.filter fun c => !isAsciiWs c) = b :=
    List.filter_eq_self.mpr fun c hc => by rw [b64_not_ws c (h2 c hc)]; rfl
  unfold atobLen
  simp [hfil, dropPadding_no_pad h2, h3, List.all_eq_true.mpr h2]

/-- C7: `getFileSizeFromDataURL` is total and never throws: for any input
with no comma, an empty body after the first comma, or a body the base64
decoder rejects, it returns 0; on a well-formed body it returns the decoded
byte count divided by 1024 (rounded to two decimals), and for an unpadded
base64 body of length 4k the decoded count is 3k — it measures decoded
bytes, not base64 text length. -/
theorem c7_size_estimator :
    (∀ u : String, (splitOnChar ',' u.data).get? 1 = none →
      getFileSizeFromDataURL u = 0) ∧
    (∀ (u : String) (b : List Char), (splitOnChar ',' u.data).get? 1 = some b →
      b.isEmpty = true ∨ atobLen b = none → getFileSizeFromDataURL u = 0) ∧
    (∀ (u : String) (b : List Char) (n : Nat),
      (splitOnChar ',' u.data).get? 1 = some b → b.isEmpty = false →
      atobLen b = some n → getFileSizeFromDataURL u = toFixed2 ((n : ℚ) / 1024)) ∧
    (∀ b : List Char, (∀ c ∈ b, isB64Char c = true) → b.length % 4 = 0 →
      atobLen b = some (b.length / 4 * 3)) := by
  refine ⟨fun u h => getFileSize_no_body h, ?_, ?_, ?_⟩
  · intro u b h hbad
    rcases hbad with hb | ha
    · exact getFileSize_empty_body h hb
    · cases hb : b.isEmpty
      · exact getFileSize_bad_body h hb ha
      · exact getFileSize_empty_body h hb
  · intro u b n h hb ha
    exact getFileSize_good_body h hb ha
  · intro b h2 h3
    exact atobLen_unpadded h2 h3

/-- Witness for C7 at concrete inputs: "nocomma" and "data:," and an invalid
body measure 0, and the 8-character body "AAAAAAAA" measures 6 decoded
bytes, i.e. 0.01 KB after two-decimal rounding. -/
theorem c7_size_estimator_witness :
    getFileSizeFromDataURL "nocomma" = 0 ∧
    getFileSizeFromDataURL "data:," = 0 ∧
    getFileSizeFromDataURL "data:image/png;base64,!!!!" = 0 ∧
    getFileSizeFromDataURL "data:image/png;base64,AAAAAAAA" = toFixed2 ((6 : ℚ) / 1024) := by
  refine ⟨?_, ?_, ?_, ?_⟩
  · exact c7_size_estimator.1 "nocomma" (by decide)
  · exact c7_size_estimator.2.1 "data:," [] (by decide) (Or.inl (by decide))
  · exact c7_size_estimator.2.1 "data:image/png;base64,!!!!" "!!!!".data (by decide)
      (Or.inr (by decide))
  · have h := c7_size_estimator.2.2.2 "AAAAAAAA".data (by decide) (by decide)
    exact c7_size_estimator.2.2.1 "data:image/png;base64,AAAAAAAA" "AAAAAAAA".data 6
      (by decide) (by decide) (by simpa using h)

/-! ## Concrete sample data

A 1 KB png is ingested, read into `urlA`, and compressed into `urlC`, whose
base64 body decodes to 3 bytes and therefore measures 0.00 KB. -/

def fileA : JsFile := { name := "a.png", type := "image/png", size := 1024, content := [7] }

def urlA : String := "data:image/png;base64,AAAA"

def urlC : String := "data:image/jpeg;base64,AAAA"

def recA : ImageCompressionState := mkRecord "id1" fileA 1

def recB : ImageCompressionState := { recA with originalSrc := urlA, isCompressing := true }

def rec1 : ImageCompressionState :=
  { id := "id1", file := fileA, originalSize := 1, originalSrc := urlA,
    compressedSrc := some urlC, compressedSize := 0, isCompressing := false,
    error := none }

def s1 : BatchState := applyEvent (Event.ingestEv [("id1", fileA)]) initState

def s2 : BatchState := applyEvent (Event.readSuccessEv "id1" urlA) s1

def s3 : BatchState := applyEvent (Event.compressSuccessEv "id1" urlC) s2

theorem hkbA : toFixed2 ((fileA.size : ℚ) / 1024) = 1 := by
  norm_num [fileA, toFixed2, round_eq]

theorem sizeC : getFileSizeFromDataURL urlC = 0 := by
  have h := getFileSize_good_body (u := urlC) (b := "AAAA".data) (n := 3)
    (by decide) (by decide) (by decide)
  rw [h]
  norm_num [toFixed2, round_eq]

theorem s1_eq : s1 = { images := [recA], quality := 70 } := by
  have h : (handleFileProcessing [] [("id1", fileA)]).1 = [recA] := by
    unfold handleFileProcessing
    rw [sumOriginal_nil,
      processFiles_cons_accept 0 "id1" fileA [] (by decide)
        (by rw [hkbA]; norm_num [MAX_TOTAL_SIZE_MB])]
    simp [processFiles, recA, hkbA]
  show { images := [] ++ (handleFileProcessing [] [("id1", fileA)]).1, quality := 70 }
      = ({ images := [recA], quality := 70 } : BatchState)
  rw [h]
  rfl

theorem s2_eq : s2 = { images := [recB], quality := 70 } := by
  show applyEvent (Event.readSuccessEv "id1" urlA) s1 = _
  rw [s1_eq]
  simp [applyEvent, readSuccess, mapById, recB, recA, mkRecord]

theorem s3_eq : s3 = { images := [rec1], quality := 70 } := by
  show applyEvent (Event.compressSuccessEv "id1" urlC) s2 = _
  rw [s2_eq]
  simp [applyEvent, compressSuccess, mapById, sizeC, rec1, recB, recA, mkRecord, urlA]

theorem s1_reachable : Reachable s1 := by
  refine Reachable.step _ Reachable.init ?_
  refine ⟨by decide, ?_⟩
  intro p hp r hr
  simp [initState] at hr

theorem s2_reachable : Reachable s2 :=
  Reachable.step _ s1_reachable (by decide : jsStartsWith urlA "data:" = true)

theorem s3_reachable : Reachable s3 :=
  Reachable.step _ s2_reachable (by decide : jsStartsWith urlC "data:" = true)

/-! ## C1: the batch budget -/

/-- C1: after any sequence of events (in particular after every ingest call)
the total original size of the records never exceeds the 50 MB budget
(51200 KB); and within one ingest call the decisions are fail-fast: from the
first budget-rejected file onward every later file of the same call is
budget-rejected too, never accepted. -/
theorem c1_budget_invariant :
    (∀ s : BatchState, Reachable s →
      sumOriginal s.images ≤ MAX_TOTAL_SIZE_MB * 1024) ∧
    (∀ (images : List ImageCompressionState) (files : List (String × JsFile))
        (i j : Nat),
      (handleFileProcessing images files).2[i]? = some IngestDecision.rejectedBudget →
      i ≤ j → j < (handleFileProcessing images files).2.length →
      (handleFileProcessing images files).2[j]?
        = some IngestDecision.rejectedBudget) :=
  ⟨fun _ hs => (reachable_inv hs).2,
    fun _ files i j hi hij hj => processFiles_failFast _ files i j hi hij hj⟩

def fileBig : JsFile :=
  { name := "big.png", type := "image/png", size := 31457280, content := [] }

theorem hkbBig : toFixed2 ((fileBig.size : ℚ) / 1024) = 30720 := by
  norm_num [fileBig, toFixed2, round_eq]

theorem bigBatch_decisions :
    (handleFileProcessing [] [("w1", fileBig), ("w2", fileBig)]).2
      = [IngestDecision.accepted, IngestDecision.rejectedBudget] := by
  unfold handleFileProcessing
  rw [sumOriginal_nil,
    processFiles_cons_accept 0 "w1" fileBig _ (by decide)
      (by rw [hkbBig]; norm_num [MAX_TOTAL_SIZE_MB]),
    processFiles_cons_budget (0 + toFixed2 ((fileBig.size : ℚ) / 1024)) "w2" fileBig []
      (by decide) (by rw [hkbBig]; norm_num [MAX_TOTAL_SIZE_MB])]
  rfl

/-- Witness for C1: the reachable one-record state stays under budget, and
in a call ingesting two 30 MB files the second decision is budget-rejected
and stays budget-rejected to the end of the call. -/
theorem c1_budget_invariant_witness :
    sumOriginal s1.images ≤ MAX_TOTAL_SIZE_MB * 1024 ∧
    (handleFileProcessing [] [("w1", fileBig), ("w2", fileBig)]).2[1]?
      = some IngestDecision.rejectedBudget := by
  refine ⟨c1_budget_invariant.1 s1 s1_reachable, ?_⟩
  exact c1_budget_invariant.2 [] [("w1", fileBig), ("w2", fileBig)] 1 1
    (by rw [bigBatch_decisions]; rfl) le_rfl (by rw [bigBatch_decisions]; decide)

/-! ## C2: non-image files and the budget accumulator -/

def fileTxtBig : JsFile :=
  { name := "notes.txt", type := "text/plain", size := 52428800, content := [] }

def fileTxtSmall : JsFile :=
  { name := "notes.txt", type := "text/plain", size := 0, content := [] }

def fileSmallImg : JsFile :=
  { name := "a.png", type := "image/png", size := 1024, content := [] }

theorem hkbTxtBig : toFixed2 ((fileTxtBig.size : ℚ) / 1024) = 51200 := by
  norm_num [fileTxtBig, toFixed2, round_eq]

theorem hkbTxtSmall : toFixed2 ((fileTxtSmall.size : ℚ) / 1024) = 0 := by
  norm_num [fileTxtSmall, toFixed2, round_eq]

theorem hkbSmallImg : toFixed2 ((fileSmallImg.size : ℚ) / 1024) = 1 := by
  norm_num [fileSmallImg, toFixed2, round_eq]

/-- C2 (code bug): the source adds every file size to the running total
before the image-type check, so the 50 MB of a rejected text file still
counts toward the budget and the 1 KB image after it is budget-rejected,
while with the same text file shrunk to 0 bytes the same image is accepted —
the fate of a later file is not independent of the sizes of earlier
rejected non-images, and no record is ever created for either call shown
rejected. -/
theorem c2_nonimage_size_counts :
    (handleFileProcessing [] [("t1", fileTxtBig), ("t2", fileSmallImg)]).2
      = [IngestDecision.rejectedNotImage, IngestDecision.rejectedBudget] ∧
    (handleFileProcessing [] [("t1", fileTxtSmall), ("t2", fileSmallImg)]).2
      = [IngestDecision.rejectedNotImage, IngestDecision.accepted] ∧
    (handleFileProcessing [] [("t1", fileTxtBig), ("t2", fileSmallImg)]).1 = [] := by
  refine ⟨?_, ?_, ?_⟩
  · unfold handleFileProcessing
    rw [sumOriginal_nil,
      processFiles_cons_notImage 0 "t1" fileTxtBig _ (by decide),
      processFiles_cons_budget (0 + toFixed2 ((fileTxtBig.size : ℚ) / 1024)) "t2"
        fileSmallImg [] (by decide)
        (by rw [hkbTxtBig, hkbSmallImg]; norm_num [MAX_TOTAL_SIZE_MB])]
    rfl
  · unfold handleFileProcessing
    rw [sumOriginal_nil,
      processFiles_cons_notImage 0 "t1" fileTxtSmall _ (by decide),
      processFiles_cons_accept (0 + toFixed2 ((fileTxtSmall.size : ℚ) / 1024)) "t2"
        fileSmallImg [] (by decide)
        (by rw [hkbTxtSmall, hkbSmallImg]; norm_num [MAX_TOTAL_SIZE_MB])]
    rfl
  · unfold handleFileProcessing
    rw [sumOriginal_nil,
      processFiles_cons_notImage 0 "t1" fileTxtBig _ (by decide),
      processFiles_cons_budget (0 + toFixed2 ((fileTxtBig.size : ℚ) / 1024)) "t2"
        fileSmallImg [] (by decide)
        (by rw [hkbTxtBig, hkbSmallImg]; norm_num [MAX_TOTAL_SIZE_MB])]

/-! ## C3: compressed size zero versus null preview -/

/-- C3 counterexample: a reachable state holds a record whose compressed
preview is populated (the stored jpeg data URL) while its measured
compressed size is 0, because the base64 body "AAAA" decodes to 3 bytes,
which rounds to 0.00 KB — so compressedSizeKB = 0 does not imply
compressedPreview = null, refuting the stated equivalence. -/
theorem c3_counterexample :
    Reachable s3 ∧ s3.images = [rec1] ∧
    rec1.compressedSize = 0 ∧ rec1.compressedSrc ≠ none := by
  refine ⟨s3_reachable, ?_, rfl, by simp [rec1]⟩
  rw [s3_eq]

/-- C3 amended: the direction that does hold of every reachable state — a
record whose compressedPreview is null has compressedSizeKB 0
(equivalently, a nonzero compressedSizeKB implies a populated preview). The
converse fails when a successful compression delivers a payload that
measures 0.00 KB. -/
theorem c3_null_preview_zero_size (s : BatchState) (hs : Reachable s) :
    ∀ r ∈ s.images, r.compressedSrc = none → r.compressedSize = 0 :=
  fun r hr hn => ((reachable_inv hs).1 r hr).2.2 hn

/-- Witness for C3 (amended): at the reachable freshly-ingested state the
record has no preview and indeed size 0. -/
theorem c3_null_preview_zero_size_witness : recA.compressedSize = 0 :=
  c3_null_preview_zero_size { images := [recA], quality := 70 }
    (s1_eq ▸ s1_reachable) recA (List.mem_singleton.mpr rfl) rfl

/-! ## C10: classification by declared MIME type only -/

def fileHuge : JsFile :=
  { name := "huge.png", type := "image/png", size := 62914560, content := [] }

theorem hkbHuge : toFixed2 ((fileHuge.size : ℚ) / 1024) = 61440 := by
  norm_num [fileHuge, toFixed2, round_eq]

/-- C10 counterexample: a single 60 MB file whose declared type starts with
"image/" creates no record — the budget check rejects it — so "a record is
created for every file whose declared type has the prefix" fails as
stated. -/
theorem c10_counterexample :
    jsStartsWith fileHuge.type "image/" = true ∧
    (handleFileProcessing [] [("h1", fileHuge)]).1 = [] := by
  refine ⟨by decide, ?_⟩
  unfold handleFileProcessing
  rw [sumOriginal_nil, processFiles_cons_budget 0 "h1" fileHuge [] (by decide)
    (by rw [hkbHuge]; norm_num [MAX_TOTAL_SIZE_MB])]

/-- C10 amended: ingestion classifies solely by whether the declared MIME
string starts with "image/" and never inspects content — two calls whose
files differ only in content bytes produce identical decisions and records
(up to those bytes); every file with the prefix whose size also fits the
remaining budget yields a record regardless of its bytes; and a content
mismatch surfaces only later as the per-record decode error
"Image load failed.". -/
theorem c10_mime_only_classification :
    (∀ (total : ℚ) (fs fs' : List (String × JsFile)),
      List.Forall₂ (fun p q : String × JsFile =>
        p.1 = q.1 ∧ fileNoContent p.2 = fileNoContent q.2) fs fs' →
      (processFiles total fs).2 = (processFiles total fs').2 ∧
      (processFiles total fs).1.map eraseContent
        = (processFiles total fs').1.map eraseContent) ∧
    (∀ (total : ℚ) (i : String) (f : JsFile) (rest : List (String × JsFile)),
      jsStartsWith f.type "image/" = true →
      ¬ MAX_TOTAL_SIZE_MB * 1024 < total + toFixed2 ((f.size : ℚ) / 1024) →
      (processFiles total ((i, f) :: rest)).1.head?
          = some (mkRecord i f (toFixed2 ((f.size : ℚ) / 1024))) ∧
      (processFiles total ((i, f) :: rest)).2.head? = some IngestDecision.accepted) ∧
    (∀ (i : String) (l : List ImageCompressionState), ∀ r' ∈ compressLoadError i l,
      r'.id = i → r'.error = some "Image load failed.") := by
  refine ⟨processFiles_content_free, ?_, ?_⟩
  · intro total i f rest h h2
    rw [processFiles_cons_accept total i f rest h h2]
    exact ⟨rfl, rfl⟩
  · intro i l r' hr' hid
    obtain ⟨r, hr, he⟩ := mem_mapById hr'
    subst he
    by_cases hc : r.id = i
    · rw [if_pos hc]
    · rw [if_neg hc] at hid
      exact absurd hid hc

/-- Witness for C10 (amended): an in-budget png is accepted and its record
created. -/
theorem c10_mime_only_classification_witness :
    (processFiles 0 [("id1", fileA)]).1.head?
      = some (mkRecord "id1" fileA (toFixed2 ((fileA.size : ℚ) / 1024))) :=
  (c10_mime_only_classification.2.1 0 "id1" fileA [] (by decide)
    (by rw [hkbA]; norm_num [MAX_TOTAL_SIZE_MB])).1

/-! ## C4: `globalStats` versus the reference `computeStats` -/

theorem record_done_iff (r : ImageCompressionState) :
    ((truthy r.compressedSrc || truthy r.error) && !r.isCompressing) = true ↔
      (status r = RecStatus.Ready ∨ status r = RecStatus.Errored) := by
  cases h1 : r.isCompressing <;> cases h2 : truthy r.error <;>
    cases h3 : truthy r.compressedSrc <;> simp [status, h1, h2, h3]

/-- C4: the derived statistics of the source agree with the reference
definitions of the specification on every batch state: the saved amount is
`max 0 (originalTotal - compressedTotal)`, the reduction ratio is
`saved / originalTotal * 100` for a positive original total and 0 otherwise,
and the all-finished flag holds exactly when the batch is non-empty and
every record is Ready or Errored. -/
theorem c4_globalStats_spec (s : BatchState) :
    (globalStats s).saved = specSavedKB s ∧
    (globalStats s).ratio = specReductionPercent s ∧
    ((globalStats s).allCompressed = true ↔ specAllDone s) := by
  refine ⟨?_, ?_, ?_⟩
  · show (if 0 < sumOriginal s.images - sumCompressed s.images then
        sumOriginal s.images - sumCompressed s.images else 0)
      = max 0 (sumOriginal s.images - sumCompressed s.images)
    rcases lt_or_le 0 (sumOriginal s.images - sumCompressed s.images) with h | h
    · rw [if_pos h, max_eq_right (le_of_lt h)]
    · rw [if_neg (not_lt.mpr h), max_eq_left h]
  · show (if 0 < (if 0 < sumOriginal s.images then
          (sumOriginal s.images - sumCompressed s.images) / sumOriginal s.images * 100
          else 0) then
        (if 0 < sumOriginal s.images then
          (sumOriginal s.images - sumCompressed s.images) / sumOriginal s.images * 100
          else 0) else 0)
      = specReductionPercent s
    unfold specReductionPercent specSavedKB
    by_cases h : 0 < sumOriginal s.images
    · rw [if_pos h, if_pos h]
      by_cases hs : 0 < sumOriginal s.images - sumCompressed s.images
      · have hpos : 0 < (sumOriginal s.images - sumCompressed s.images)
            / sumOriginal s.images * 100 := by
          apply mul_pos (div_pos hs h)
          norm_num
        rw [if_pos hpos, max_eq_right (le_of_lt hs)]
      · have hle : (sumOriginal s.images - sumCompressed s.images)
            / sumOriginal s.images * 100 ≤ 0 := by
          apply mul_nonpos_iff.mpr
          refine Or.inr ⟨?_, by norm_num⟩
          exact div_nonpos_iff.mpr (Or.inr ⟨le_of_not_lt hs, le_of_lt h⟩)
        rw [if_neg (not_lt.mpr hle), max_eq_left (le_of_not_lt hs)]
        simp
    · rw [if_neg h, if_neg h]
      simp
  · show ((s.images.all fun r =>
        (truthy r.compressedSrc || truthy r.error) && !r.isCompressing)
        && decide (0 < s.images.length)) = true ↔ specAllDone s
    rw [Bool.and_eq_true, List.all_eq_true, decide_eq_true_eq]
    unfold specAllDone
    constructor
    · rintro ⟨hall, hlen⟩
      refine ⟨?_, fun r hr => (record_done_iff r).mp (hall r hr)⟩
      intro he
      rw [he] at hlen
      simp at hlen
    · rintro ⟨hne, hall⟩
      refine ⟨fun r hr => (record_done_iff r).mpr (hall r hr), ?_⟩
      cases hl : s.images with
      | nil => exact absurd hl hne
      | cons a t => simp [hl]

/-! ## C5: removal and stale completions -/

/-- C5: `handleRemoveImage` keeps exactly the records with a different id
(the addressed record disappears, every other record survives, nothing new
appears) and is a no-op when the id is absent; and when an id is absent from
the batch, every late completion addressed to it — success, load error or
canvas error — leaves the state unchanged, so a removed record is never
resurrected by a stale completion. -/
theorem c5_remove_stale :
    (∀ (i : String) (s : BatchState),
      ∀ r' ∈ (handleRemoveImage i s).images, r'.id ≠ i) ∧
    (∀ (i : String) (s : BatchState), ∀ r ∈ s.images, r.id ≠ i →
      r ∈ (handleRemoveImage i s).images) ∧
    (∀ (i : String) (s : BatchState),
      ∀ r' ∈ (handleRemoveImage i s).images, r' ∈ s.images) ∧
    (∀ (i : String) (s : BatchState), (∀ r ∈ s.images, r.id ≠ i) →
      handleRemoveImage i s = s) ∧
    (∀ (i url : String) (s : BatchState), (∀ r ∈ s.images, r.id ≠ i) →
      applyEvent (Event.compressSuccessEv i url) s = s ∧
      applyEvent (Event.compressLoadErrorEv i) s = s ∧
      applyEvent (Event.compressCanvasErrorEv i) s = s) := by
  refine ⟨?_, ?_, ?_, ?_, ?_⟩
  · intro i s r' hr'
    have h := List.of_mem_filter hr'
    simpa using h
  · intro i s r hr hne
    exact List.mem_filter.mpr ⟨hr, by simpa using hne⟩
  · intro i s r' hr'
    exact List.mem_of_mem_filter hr'
  · intro i s h
    show { s with images := s.images.filter fun r => !(r.id == i) } = s
    have he : (s.images.filter fun r => !(r.id == i)) = s.images :=
      List.filter_eq_self.mpr fun r hr => by simpa using h r hr
    rw [he]
  · intro i url s h
    refine ⟨?_, ?_, ?_⟩
    · show { s with images := compressSuccess i url s.images } = s
      unfold compressSuccess
      rw [mapById_eq_self h]
    · show { s with images := compressLoadError i s.images } = s
      unfold compressLoadError
      rw [mapById_eq_self h]
    · show { s with images := compressCanvasError i s.images } = s
      unfold compressCanvasError
      rw [mapById_eq_self h]

/-- Witness for C5 at a concrete state: removing an absent id, and a stale
success completion for that id, both leave the one-record state unchanged. -/
theorem c5_remove_stale_witness :
    handleRemoveImage "ghost" { images := [recA], quality := 70 }
        = { images := [recA], quality := 70 } ∧
    applyEvent (Event.compressSuccessEv "ghost" urlC)
        { images := [recA], quality := 70 }
      = { images := [recA], quality := 70 } := by
  have h : ∀ r ∈ ({ images := [recA], quality := 70 } : BatchState).images,
      r.id ≠ "ghost" := by
    intro r hr
    rw [List.mem_singleton] at hr
    subst hr
    decide
  exact ⟨c5_remove_stale.2.2.2.1 "ghost" _ h,
    (c5_remove_stale.2.2.2.2 "ghost" urlC _ h).1⟩

/-! ## C6: failure frame, error lifecycle, and preview monotonicity -/

theorem nodup_id_eq {l : List ImageCompressionState}
    (h : (l.map (·.id)).Nodup) :
    ∀ {a b : ImageCompressionState}, a ∈ l → b ∈ l → a.id = b.id → a = b := by
  induction l with
  | nil => intro a b ha _ _; simp at ha
  | cons x t ih =>
    intro a b ha hb heq
    rw [List.map_cons, List.nodup_cons] at h
    obtain ⟨hx, ht⟩ := h
    rcases List.mem_cons.mp ha with rfl | ha2
    · rcases List.mem_cons.mp hb with rfl | hb2
      · rfl
      · exfalso
        apply hx
        rw [heq]
        exact List.mem_map_of_mem _ hb2
    · rcases List.mem_cons.mp hb with rfl | hb2
      · exfalso
        apply hx
        rw [← heq]
        exact List.mem_map_of_mem _ ha2
      · exact ih ht ha2 hb2 heq

theorem isSome_mono_mapById {l : List ImageCompressionState} {i : String}
    {f : ImageCompressionState → ImageCompressionState}
    (hid : ∀ r, (f r).id = r.id)
    (hsome : ∀ r, r.compressedSrc.isSome = true → (f r).compressedSrc.isSome = true)
    (hn : (l.map (·.id)).Nodup) :
    ∀ r ∈ l, r.compressedSrc.isSome = true →
    ∀ r' ∈ mapById i f l, r'.id = r.id → r'.compressedSrc.isSome = true := by
  intro r hr hs r' hr' heq
  obtain ⟨r0, hr0, he⟩ := mem_mapById hr'
  subst he
  by_cases hc : r0.id = i
  · rw [if_pos hc] at heq ⊢
    rw [hid r0] at heq
    have he0 : r0 = r := nodup_id_eq hn hr0 hr heq
    subst he0
    exact hsome r0 hs
  · rw [if_neg hc] at heq ⊢
    have he0 : r0 = r := nodup_id_eq hn hr0 hr heq
    subst he0
    exact hs

/-- Across any single event, with unique record ids, a record whose
`compressedSrc` is populated keeps it populated (possibly overwritten, never
reset to null). -/
theorem compressedSrc_isSome_mono {s : BatchState} (e : Event)
    (hp : permitted e s) (hn : (s.images.map (·.id)).Nodup) :
    ∀ r ∈ s.images, r.compressedSrc.isSome = true →
    ∀ r' ∈ (applyEvent e s).images, r'.id = r.id →
      r'.compressedSrc.isSome = true := by
  intro r hr hs r' hr' hid
  cases e with
  | ingestEv files =>
    simp only [applyEvent] at hr'
    rcases List.mem_append.mp hr' with h | h
    · rw [nodup_id_eq hn h hr hid]
      exact hs
    · obtain ⟨_, _, _, _, _, _, p, hpmem, hid2, _⟩ :=
        processFiles_records (sumOriginal s.images) files r' h
      exact absurd (hid2.symm.trans hid) (hp.2 p hpmem r hr)
  | readStartEv i =>
    exact isSome_mono_mapById (i := i)
      (f := fun r => { r with isCompressing := true })
      (fun _ => rfl) (fun _ h => h) hn r hr hs r' hr' hid
  | readSuccessEv i src =>
    exact isSome_mono_mapById (i := i)
      (f := fun r => { r with originalSrc := src, isCompressing := true, error := none })
      (fun _ => rfl) (fun _ h => h) hn r hr hs r' hr' hid
  | readErrorEv i =>
    exact isSome_mono_mapById (i := i)
      (f := fun r => { r with isCompressing := false, error := some "Read error." })
      (fun _ => rfl) (fun _ h => h) hn r hr hs r' hr' hid
  | compressStartEv i =>
    exact isSome_mono_mapById (i := i)
      (f := fun r => { r with isCompressing := true, error := none })
      (fun _ => rfl) (fun _ h => h) hn r hr hs r' hr' hid
  | compressSuccessEv i url =>
    exact isSome_mono_mapById (i := i)
      (f := fun r =>
        { r with
          compressedSrc := some url
          compressedSize := getFileSizeFromDataURL url
          isCompressing := false })
      (fun _ => rfl) (fun _ _ => rfl) hn r hr hs r' hr' hid
  | compressCanvasErrorEv i =>
    exact isSome_mono_mapById (i := i)
      (f := fun r => { r with isCompressing := false, error := some "Canvas error." })
      (fun _ => rfl) (fun _ h => h) hn r hr hs r' hr' hid
  | compressLoadErrorEv i =>
    exact isSome_mono_mapById (i := i)
      (f := fun r => { r with isCompressing := false, error := some "Image load failed." })
      (fun _ => rfl) (fun _ h => h) hn r hr hs r' hr' hid
  | qualityChangeEv q =>
    simp only [applyEvent, handleQualityChange] at hr'
    rcases hl : s.images with _ | ⟨first, rest⟩
    · rw [hl] at hr
      simp at hr
    · rw [hl] at hr' hr hn
      simp only at hr'
      by_cases hsrc : first.originalSrc = ""
      · rw [if_pos hsrc] at hr'
        rw [nodup_id_eq hn hr' hr hid]
        exact hs
      · rw [if_neg hsrc] at hr'
        exact isSome_mono_mapById (i := first.id)
          (f := fun r => { r with isCompressing := true, error := none })
          (fun _ => rfl) (fun _ h => h) hn r hr hs r' hr' hid
  | removeEv i =>
    simp only [applyEvent, handleRemoveImage] at hr'
    have h2 := List.mem_of_mem_filter hr'
    rw [nodup_id_eq hn h2 hr hid]
    exact hs
  | resetEv =>
    simp [applyEvent] at hr'

/-- C6: a failed compression attempt — load failure or canvas failure —
leaves `compressedSrc` and `compressedSize` of every record unchanged and
sets the error message of the addressed record; starting a compression
attempt leaves the compressed fields unchanged, marks the addressed record
compressing and clears its error; and across every event, with unique
record ids, a populated `compressedSrc` is never reset to null. -/
theorem c6_error_frame :
    (∀ (i : String) (l : List ImageCompressionState), ∀ r' ∈ compressLoadError i l,
      ∃ r ∈ l, r'.id = r.id ∧ r'.compressedSrc = r.compressedSrc ∧
        r'.compressedSize = r.compressedSize ∧
        (r.id = i → r'.error = some "Image load failed.")) ∧
    (∀ (i : String) (l : List ImageCompressionState), ∀ r' ∈ compressCanvasError i l,
      ∃ r ∈ l, r'.id = r.id ∧ r'.compressedSrc = r.compressedSrc ∧
        r'.compressedSize = r.compressedSize ∧
        (r.id = i → r'.error = some "Canvas error.")) ∧
    (∀ (i : String) (l : List ImageCompressionState), ∀ r' ∈ compressStart i l,
      ∃ r ∈ l, r'.id = r.id ∧ r'.compressedSrc = r.compressedSrc ∧
        r'.compressedSize = r.compressedSize ∧
        (r.id = i → r'.error = none ∧ r'.isCompressing = true)) ∧
    (∀ (e : Event) (s : BatchState), permitted e s →
      (s.images.map (·.id)).Nodup →
      ∀ r ∈ s.images, r.compressedSrc.isSome = true →
      ∀ r' ∈ (applyEvent e s).images, r'.id = r.id →
        r'.compressedSrc.isSome = true) := by
  refine ⟨?_, ?_, ?_, fun e s hp hn => compressedSrc_isSome_mono e hp hn⟩
  · intro i l r' hr'
    obtain ⟨r, hr, he⟩ := mem_mapById hr'
    subst he
    by_cases hc : r.id = i
    · rw [if_pos hc]
      exact ⟨r, hr, rfl, rfl, rfl, fun _ => rfl⟩
    · rw [if_neg hc]
      exact ⟨r, hr, rfl, rfl, rfl, fun hcon => absurd hcon hc⟩
  · intro i l r' hr'
    obtain ⟨r, hr, he⟩ := mem_mapById hr'
    subst he
    by_cases hc : r.id = i
    · rw [if_pos hc]
      exact ⟨r, hr, rfl, rfl, rfl, fun _ => rfl⟩
    · rw [if_neg hc]
      exact ⟨r, hr, rfl, rfl, rfl, fun hcon => absurd hcon hc⟩
  · intro i l r' hr'
    obtain ⟨r, hr, he⟩ := mem_mapById hr'
    subst he
    by_cases hc : r.id = i
    · rw [if_pos hc]
      exact ⟨r, hr, rfl, rfl, rfl, fun _ => ⟨rfl, rfl⟩⟩
    · rw [if_neg hc]
      exact ⟨r, hr, rfl, rfl, rfl, fun hcon => absurd hcon hc⟩

/-- The record of the sample state after a late load-failure completion. -/
def rec1err : ImageCompressionState :=
  { rec1 with
    isCompressing := false
    error := some "Image load failed." }

/-- Witness for C6: after a load-failure completion addressed to the one
record of a reachable state, that record still holds its compressed
preview. -/
theorem c6_error_frame_witness : rec1err.compressedSrc.isSome = true := by
  have hmem : rec1err
      ∈ (applyEvent (Event.compressLoadErrorEv "id1")
          { images := [rec1], quality := 70 }).images := by
    show _ ∈ compressLoadError "id1" [rec1]
    unfold compressLoadError mapById
    rw [List.map_cons, if_pos (show rec1.id = "id1" from rfl)]
    exact List.mem_cons_self _ _
  exact c6_error_frame.2.2.2 (Event.compressLoadErrorEv "id1")
    { images := [rec1], quality := 70 } trivial (by decide) rec1
    (List.mem_singleton.mpr rfl) rfl _ hmem rfl

/-! ## C8: quality changes re-encode every loaded record -/

theorem compressStart_marks (i : String) (l : List ImageCompressionState) :
    ∀ r' ∈ compressStart i l, r'.id = i →
      r'.isCompressing = true ∧ r'.error = none := by
  intro r' hr' hid
  obtain ⟨r, hr, he⟩ := mem_mapById hr'
  subst he
  by_cases hc : r.id = i
  · rw [if_pos hc]
    exact ⟨rfl, rfl⟩
  · rw [if_neg hc] at hid
    exact absurd hid hc

/-- C8: `handleQualityChange` updates the shared quality; the encoder
invocations it issues — the immediate one plus the deferred ones — are
exactly one per record with a loaded original source, in batch order, each
carrying the new quality; the immediate invocation is the first record
(when loaded) and the deferred ones come from the remaining records; the
synchronous state change already marks the immediately re-encoded record
compressing with its error cleared, and firing any issued invocation marks
its record compressing with its error cleared. -/
theorem c8_quality_change (s : BatchState) (newQ : Nat) :
    (handleQualityChange s newQ).1.quality = newQ ∧
    (handleQualityChange s newQ).2.1 ++ (handleQualityChange s newQ).2.2
      = (s.images.filter fun r => !(r.originalSrc == "")).map
          (fun r => (⟨r.id, r.originalSrc, newQ⟩ : EncodeReq)) ∧
    (handleQualityChange s newQ).2.1
      = ((s.images.take 1).filter fun r => !(r.originalSrc == "")).map
          (fun r => (⟨r.id, r.originalSrc, newQ⟩ : EncodeReq)) ∧
    (∀ req ∈ (handleQualityChange s newQ).2.1 ++ (handleQualityChange s newQ).2.2,
      req.q = newQ) ∧
    (∀ (i : String) (l : List ImageCompressionState), ∀ r' ∈ compressStart i l,
      r'.id = i → r'.isCompressing = true ∧ r'.error = none) ∧
    (∀ req ∈ (handleQualityChange s newQ).2.1,
      ∀ r' ∈ (handleQualityChange s newQ).1.images, r'.id = req.id →
        r'.isCompressing = true ∧ r'.error = none) := by
  have hall : (handleQualityChange s newQ).2.1 ++ (handleQualityChange s newQ).2.2
      = (s.images.filter fun r => !(r.originalSrc == "")).map
          (fun r => (⟨r.id, r.originalSrc, newQ⟩ : EncodeReq)) := by
    cases hl : s.images with
    | nil => simp [handleQualityChange, hl]
    | cons first rest =>
      by_cases hsrc : first.originalSrc = ""
      · simp [handleQualityChange, hl, hsrc, List.filter_cons]
      · simp [handleQualityChange, hl, hsrc, List.filter_cons]
  have hq : (handleQualityChange s newQ).1.quality = newQ := by
    cases hl : s.images with
    | nil => simp [handleQualityChange, hl]
    | cons first rest => simp [handleQualityChange, hl]
  have himm : (handleQualityChange s newQ).2.1
      = ((s.images.take 1).filter fun r => !(r.originalSrc == "")).map
          (fun r => (⟨r.id, r.originalSrc, newQ⟩ : EncodeReq)) := by
    cases hl : s.images with
    | nil => simp [handleQualityChange, hl]
    | cons first rest =>
      by_cases hsrc : first.originalSrc = ""
      · simp [handleQualityChange, hl, hsrc, List.take_succ_cons, List.filter_cons]
      · simp [handleQualityChange, hl, hsrc, List.take_succ_cons, List.filter_cons]
  refine ⟨hq, hall, himm, ?_, compressStart_marks, ?_⟩
  · intro req hreq
    rw [hall] at hreq
    obtain ⟨r, _, he⟩ := List.mem_map.mp hreq
    rw [← he]
  · intro req hreq r' hr' hid
    cases hl : s.images with
    | nil => simp [handleQualityChange, hl] at hreq
    | cons first rest =>
      by_cases hsrc : first.originalSrc = ""
      · simp [handleQualityChange, hl, hsrc] at hreq
      · simp only [handleQualityChange, hl, if_neg hsrc] at hreq hr'
        obtain rfl : req = ⟨first.id, first.originalSrc, newQ⟩ := by
          simpa using hreq
        exact compressStart_marks first.id _ r' hr' hid

/-! ## C9: archive contents and naming -/

theorem takeWhile_all_append {p : Char → Bool} {l1 l2 : List Char}
    (h : ∀ a ∈ l1, p a = true) :
    (l1 ++ l2).takeWhile p = l1 ++ l2.takeWhile p := by
  induction l1 with
  | nil => rfl
  | cons a t ih =>
    rw [List.cons_append, List.takeWhile_cons_of_pos (h a (List.mem_cons_self a t)),
      ih fun b hb => h b (List.mem_cons_of_mem a hb), List.cons_append]

theorem stripExt_append_ext (base ext : String) (hne : ext.data ≠ [])
    (h : ∀ c ∈ ext.data, (!(c == '.') && !(c == '/')) = true) :
    stripExt (base ++ "." ++ ext) = base := by
  have hdata : (base ++ "." ++ ext).data = base.data ++ '.' :: ext.data := by
    rw [String.data_append, String.data_append]
    simp
  have hrev : (base ++ "." ++ ext).data.reverse
      = ext.data.reverse ++ '.' :: base.data.reverse := by
    rw [hdata, List.reverse_append, List.reverse_cons, List.append_assoc]
    rfl
  have hrevmem : ∀ c ∈ ext.data.reverse, (!(c == '.') && !(c == '/')) = true :=
    fun c hc => h c (List.mem_reverse.mp hc)
  have htw : ((base ++ "." ++ ext).data.reverse.takeWhile
        fun c => !(c == '.') && !(c == '/'))
      = ext.data.reverse := by
    rw [hrev, takeWhile_all_append hrevmem,
      List.takeWhile_cons_of_neg (by decide), List.append_nil]
  simp only [stripExt]
  rw [htw, hrev, List.drop_left]
  obtain ⟨c, cs, hcs⟩ :=
    List.exists_cons_of_ne_nil ((not_iff_not.mpr List.reverse_eq_nil_iff).mpr hne)
  rw [hcs]
  show String.mk base.data.reverse.reverse = base
  rw [List.reverse_reverse]

theorem zipEntriesList_eq (q : Nat) (l : List ImageCompressionState)
    (h : ∀ r ∈ l, r.compressedSrc ≠ some "") :
    zipEntriesList q l
      = (l.filter fun r => r.compressedSrc.isSome).map
          fun r => (entryName r.file.name q,
            (splitOnChar ',' ((r.compressedSrc.getD "").data)).get? 1) := by
  induction l with
  | nil => rfl
  | cons a t ih =>
    have ht := ih fun r hr => h r (List.mem_cons_of_mem a hr)
    unfold zipEntriesList at ht ⊢
    rw [List.filterMap_cons]
    cases hc : a.compressedSrc with
    | none =>
      simp only [hc, List.filter_cons, Option.isSome_none, Bool.false_eq_true,
        if_false]
      exact ht
    | some src =>
      have hne : (src == "") = false := by
        have hs := h a (List.mem_cons_self a t)
        rw [hc] at hs
        simpa using hs
      simp only [hc, hne, Bool.false_eq_true, if_false, List.filter_cons,
        Option.isSome_some, if_true, List.map_cons]
      rw [ht]
      rfl

/-- C9: when the batch is finished and the download runs, the archive holds
exactly one entry per record with a populated compressed preview — records
without one are skipped — each named by stripping the extension of the
original file name and appending the quality as `<base>_Q<quality>.jpg`, and
the archive itself is named `compressed_images_Q<quality>.zip`. -/
theorem c9_archive :
    (∀ s : BatchState, Reachable s → (globalStats s).allCompressed = true →
      handleBatchDownload s
        = some (zipFileName s.quality,
            (s.images.filter fun r => r.compressedSrc.isSome).map
              fun r => (entryName r.file.name s.quality,
                (splitOnChar ',' ((r.compressedSrc.getD "").data)).get? 1))) ∧
    (∀ (base ext : String) (q : Nat), ext.data ≠ [] →
      (∀ c ∈ ext.data, (!(c == '.') && !(c == '/')) = true) →
      entryName (base ++ "." ++ ext) q = base ++ "_Q" ++ toString q ++ ".jpg") ∧
    (∀ q : Nat, zipFileName q = "compressed_images_Q" ++ toString q ++ ".zip") := by
  refine ⟨?_, ?_, fun q => rfl⟩
  · intro s hs hall
    unfold handleBatchDownload
    rw [if_pos hall]
    unfold zipEntries
    rw [zipEntriesList_eq s.quality s.images
      fun r hr => ((reachable_inv hs).1 r hr).2.1]
  · intro base ext q hne h
    unfold entryName
    rw [stripExt_append_ext base ext hne h]

/-- Witness for C9 at the reachable finished sample state: its one record
has a preview, so the archive gets exactly its entry, named a_Q70.jpg inside
compressed_images_Q70.zip. -/
theorem c9_archive_witness :
    handleBatchDownload s3
      = some (zipFileName s3.quality,
          (s3.images.filter fun r => r.compressedSrc.isSome).map
            fun r => (entryName r.file.name s3.quality,
              (splitOnChar ',' ((r.compressedSrc.getD "").data)).get? 1)) :=
  c9_archive.1 s3 s3_reachable (by rw [s3_eq]; decide)

end ImageCompressor
